import Mathlib

/-!
Verification of the gochroma streaming fingerprinting core.

The development shallowly embeds the two source files of the repository:

* `chromaprint/chromaprint.go` — the thin Go wrapper around the chromaprint
  engine: `NewChromaprint`, `Algorithm`, `SetOption`, `Start`, `Feed`,
  `Finish`, `GetFingerprint`, `GetRawFingerprint`.  The engine itself
  (`chromaprint_feed` etc.) is an external collaborator; where its behaviour
  matters it is modelled from the spec as an opaque accumulation of 16-bit
  samples (see `engineFeed`, `Start`, `Finish`).
* the unnamed file holding `Printer.prepare`, `Printer.Fingerprint` and
  `Printer.RawFingerprint` — the streaming feeder: clamp `MaxSeconds` to the
  120-second floor, `Start`, loop reading up to `2*10*rate*channels` bytes,
  abort on a non-EOF read error, stop on a zero-byte read, `Feed` the bytes
  read, increment the nominal duration counter by 10 seconds per iteration,
  and finally `Finish`.

Bytes are modelled as `Nat`, Go errors as `Nat` codes, and a Go runtime
panic (indexing `data[0]` of an empty slice in `Feed`) as an explicit
`FeedResult.panicked` outcome.
-/

/-- The `seconds` constant of the feeder: nominal duration of one chunk. -/
def seconds : Nat := 10

/-- The `minmaxseconds` constant of the feeder: floor for `MaxSeconds`. -/
def minmaxseconds : Nat := 120

/-- Lifecycle state of a fingerprint context (spec section 3: the state held
inside the engine handle; the Go struct itself stores only the handle and the
algorithm). -/
inductive Phase
  | uninit
  | started
  | finished
deriving DecidableEq, Repr

/-- The `ChromaprintContext` of chromaprint.go: the selected algorithm (a Go
`int` field, written only by `NewChromaprint`) together with the engine
handle, whose internal state is modelled from the spec as a lifecycle phase
plus the accumulated 16-bit samples. -/
structure ChromaprintContext where
  algorithm : Int
  phase : Phase
  samples : List (Nat × Nat)
deriving DecidableEq, Repr

/-- The `NewChromaprint` constructor of chromaprint.go: stores the algorithm
and a fresh engine handle. -/
def NewChromaprint (algorithm : Int) : ChromaprintContext :=
  ⟨algorithm, .uninit, []⟩

/-- The `Algorithm` getter of chromaprint.go: returns the stored field. -/
def Algorithm (ctx : ChromaprintContext) : Int :=
  ctx.algorithm

/-- The sample view that `Feed` hands to `chromaprint_feed`: it passes the
byte pointer with sample count `len(data)/2`, so the engine consumes the
first `2*(len/2)` bytes as consecutive 16-bit samples and a trailing odd byte
is dropped. -/
def toSamples : List Nat → List (Nat × Nat)
  | a :: b :: rest => (a, b) :: toSamples rest
  | _ => []

/-- Modelled from the spec: the engine's `chromaprint_feed` appends the
chunk's samples to the internal accumulation buffer and succeeds when the
context is Started; feeding in any other state fails.  (The engine is an
external collaborator of the repository, opaque to this core.) -/
def engineFeed (ctx : ChromaprintContext) (samples : List (Nat × Nat)) :
    Option ChromaprintContext :=
  if ctx.phase = .started then
    some { ctx with samples := ctx.samples ++ samples }
  else
    none

/-- Outcome of the Go `Feed` wrapper: a runtime panic (taking `&data[0]` of an
empty slice), the `ErrFeed` error, or success with the updated context. -/
inductive FeedResult
  | panicked
  | err
  | ok (ctx : ChromaprintContext)
deriving DecidableEq, Repr

/-- The `Feed` method of chromaprint.go: takes the address of `data[0]` — a
runtime panic when the slice is empty — and forwards `len(data)/2` samples to
`chromaprint_feed`, returning `ErrFeed` when the engine reports failure. -/
def Feed (ctx : ChromaprintContext) (data : List Nat) : FeedResult :=
  match data with
  | [] => .panicked
  | _ :: _ =>
    match engineFeed ctx (toSamples data) with
    | none => .err
    | some c => .ok c

/-- The `Start` method of chromaprint.go.  Modelled from the spec:
`chromaprint_start` (re)initializes the accumulation state for a new stream,
discarding previously accumulated data; it succeeds for the valid stream
parameters considered here. -/
def Start (ctx : ChromaprintContext) (_rate _channels : Nat) :
    Except Unit ChromaprintContext :=
  .ok { ctx with phase := .started, samples := [] }

/-- The `Finish` method of chromaprint.go.  Modelled from the spec:
`chromaprint_finish` flushes the buffered data and finalizes the fingerprint,
succeeding on a Started context. -/
def Finish (ctx : ChromaprintContext) : Except Unit ChromaprintContext :=
  if ctx.phase = .started then
    .ok { ctx with phase := .finished }
  else
    .error ()

/-- Result of one `Src.Read(buf)` call in the feeder, as the feeder observes
it.  `chunk data eof` covers `err == nil` and `err == io.EOF` (the feeder
treats both alike apart from the data); `fail e` is a non-EOF error — the
feeder checks the error before the byte count, so any bytes accompanying a
non-EOF error are dropped, which is why they are not modelled. -/
inductive ReadRes
  | chunk (data : List Nat) (eof : Bool)
  | fail (e : Nat)
deriving DecidableEq, Repr

/-- The bytes produced by a read (empty for a failed read). -/
def ReadRes.data : ReadRes → List Nat
  | .chunk d _ => d
  | .fail _ => []

/-- A read that lets the feed loop continue: successful and non-empty. -/
def ReadRes.producing : ReadRes → Bool
  | .chunk d _ => !d.isEmpty
  | .fail _ => false

/-- A successful read of exactly `n` bytes. -/
def ReadRes.fullRead (n : Nat) : ReadRes → Bool
  | .chunk d _ => d.length == n
  | .fail _ => false

/-- The chunk buffer size of the feeder: `numbytes := 2 * seconds * rate *
channels` bytes — ten seconds of 16-bit interleaved PCM. -/
def numbytes (rate channels : Nat) : Nat :=
  2 * seconds * rate * channels

/-- Errors surfaced by `prepare`: the error taxonomy of the feeder.
`start`/`feed`/`finish` are the propagated context errors, `srcRead e` is a
non-EOF source error with code `e`, and `panicked` records a Go runtime panic
escaping a context call. -/
inductive PrepErr
  | start
  | srcRead (e : Nat)
  | feed
  | finish
  | panicked
deriving DecidableEq, Repr

/-- The feed loop of `Printer.prepare`:
`for total := uint(0); total <= i.MaxSeconds; total += seconds { ... }`.
`total` is the nominal duration counter, `idx` numbers the reads, and `fuel`
is a structural bound on the remaining iterations; `prepare` passes
`max / 10 + 1`, which is exactly the number of iterations the guard
`total ≤ max` permits, so the `fuel = 0` case is never the one that stops the
loop.  Each iteration reads, aborts on a non-EOF error, stops on a zero-byte
read, and otherwise feeds the bytes read.  The returned list collects the
chunks passed to `Feed`, in order. -/
def feedLoop (src : Nat → ReadRes) (max : Nat) :
    ChromaprintContext → Nat → Nat → Nat →
    Except PrepErr ChromaprintContext × List (List Nat)
  | st, _, _, 0 => (.ok st, [])
  | st, total, idx, fuel + 1 =>
    if total ≤ max then
      match src idx with
      | .fail e => (.error (.srcRead e), [])
      | .chunk data _ =>
        if data.length = 0 then (.ok st, [])
        else
          match Feed st data with
          | .panicked => (.error .panicked, [])
          | .err => (.error .feed, [])
          | .ok st1 =>
            let r := feedLoop src max st1 (total + 10) (idx + 1) fuel
            (r.1, data :: r.2)
    else (.ok st, [])

/-- The clamp at the top of `Printer.prepare`:
`if i.MaxSeconds < minmaxseconds { i.MaxSeconds = minmaxseconds }`. -/
def clampMax (maxSeconds : Nat) : Nat :=
  if maxSeconds < minmaxseconds then minmaxseconds else maxSeconds

/-- Observable outcome of one `Printer.prepare` run: the result (the final
context on success), the chunks fed, and whether `Finish` was called. -/
structure PrepOut where
  result : Except PrepErr ChromaprintContext
  feeds : List (List Nat)
  finishCalled : Bool
deriving Repr

/-- `Printer.prepare` from the feeder file: clamp `MaxSeconds`, `Start` the
context, run the feed loop, then `Finish`.  `src` is the `RawInfo.Src`
reader, indexed by read number. -/
def prepare (maxSeconds rate channels : Nat) (src : Nat → ReadRes)
    (algo : Int) : PrepOut :=
  let max := clampMax maxSeconds
  match Start (NewChromaprint algo) rate channels with
  | .error _ => ⟨.error .start, [], false⟩
  | .ok ctx1 =>
    match feedLoop src max ctx1 0 0 (max / 10 + 1) with
    | (.error e, feeds) => ⟨.error e, feeds, false⟩
    | (.ok st, feeds) =>
      match Finish st with
      | .error _ => ⟨.error .finish, feeds, true⟩
      | .ok stf => ⟨.ok stf, feeds, true⟩

/-- `Printer.Fingerprint`: run `prepare`; on error return the zero value `""`
together with the error, otherwise extract the compact fingerprint.  The
engine's one-way compression is opaque, so the extraction is a parameter
`enc` applied to the accumulated samples. -/
def Fingerprint (enc : List (Nat × Nat) → String)
    (maxSeconds rate channels : Nat) (src : Nat → ReadRes) (algo : Int) :
    String × Option PrepErr :=
  match (prepare maxSeconds rate channels src algo).result with
  | .error e => ("", some e)
  | .ok c => (enc c.samples, none)

/-- `Printer.RawFingerprint`: run `prepare`; on error return the zero value
`nil` (modelled `[]`) together with the error, otherwise extract the raw
fingerprint via the opaque parameter `encRaw`. -/
def RawFingerprint (encRaw : List (Nat × Nat) → List Int)
    (maxSeconds rate channels : Nat) (src : Nat → ReadRes) (algo : Int) :
    List Int × Option PrepErr :=
  match (prepare maxSeconds rate channels src algo).result with
  | .error e => ([], some e)
  | .ok c => (encRaw c.samples, none)

/-- Feeding a list of chunks in sequence, stopping at the first failure:
what a caller who splits a stream into several `Feed` calls does. -/
def feedSeq (ctx : ChromaprintContext) : List (List Nat) → FeedResult
  | [] => .ok ctx
  | c :: rest =>
    match Feed ctx c with
    | .ok ctx1 => feedSeq ctx1 rest
    | r => r

/-- One public call on a context, for stating context invariants over
arbitrary call sequences. -/
inductive COp
  | setOption (name : String) (value : Int)
  | start (rate channels : Nat)
  | feed (data : List Nat)
  | finish
  | getFingerprint
  | getRawFingerprint
  | getItemDuration
  | getItemDurationSamples

/-- The context after one call.  `SetOption` stores the option inside the
engine handle, the getters are pure queries, and a failing call leaves the
Go-side context unchanged. -/
def applyOp (ctx : ChromaprintContext) : COp → ChromaprintContext
  | .setOption _ _ => ctx
  | .start r c =>
    match Start ctx r c with
    | .ok c1 => c1
    | .error _ => ctx
  | .feed d =>
    match Feed ctx d with
    | .ok c1 => c1
    | _ => ctx
  | .finish =>
    match Finish ctx with
    | .ok c1 => c1
    | .error _ => ctx
  | .getFingerprint => ctx
  | .getRawFingerprint => ctx
  | .getItemDuration => ctx
  | .getItemDurationSamples => ctx

/-- The data returned by the first `k` reads of `src` starting at read
number `idx` — the chunks an uninterrupted feed loop passes to `Feed`. -/
def readData (src : Nat → ReadRes) : Nat → Nat → List (List Nat)
  | _, 0 => []
  | idx, k + 1 => (src idx).data :: readData src (idx + 1) k

/-- Total number of bytes in a list of chunks. -/
def sumBytes (l : List (List Nat)) : Nat :=
  (l.map List.length).sum

/-- A context that has been started: used as the concrete context of the
evaluation theorems. -/
def startedCtx : ChromaprintContext :=
  ⟨0, .started, []⟩

/-- A source that always produces a full 20-byte chunk (10 seconds of mono
8000ths-scale audio at `rate = 1`, `channels = 1`) and is never exhausted. -/
def srcEndless : Nat → ReadRes :=
  fun _ => .chunk (List.replicate 20 0) false

/-- A source producing one two-byte chunk and then clean end-of-stream. -/
def srcStopAfterOne : Nat → ReadRes :=
  fun j => if j = 0 then .chunk [5, 6] false else .chunk [] true

/-- A source whose second read fails with a non-EOF error (code 7). -/
def srcFailSecond : Nat → ReadRes :=
  fun j => if j = 0 then .chunk [1, 2] false else .fail 7

/-- A source whose first read returns two bytes together with `io.EOF`, and
whose subsequent reads return zero bytes. -/
def srcTrailingEof : Nat → ReadRes :=
  fun j => if j = 0 then .chunk [9, 9] true else .chunk [] true

theorem toSamples_length : ∀ l : List Nat, (toSamples l).length = l.length / 2
  | [] => rfl
  | [_] => by simp [toSamples]
  | a :: b :: rest => by
    show (toSamples rest).length + 1 = (rest.length + 2) / 2
    rw [toSamples_length rest]
    omega

theorem toSamples_append_even :
    ∀ l m : List Nat, l.length % 2 = 0 →
      toSamples (l ++ m) = toSamples l ++ toSamples m
  | [], _, _ => rfl
  | [_], _, h => by simp at h
  | a :: b :: rest, m, h => by
    have h2 : rest.length % 2 = 0 := by simp at h; omega
    show (a, b) :: toSamples (rest ++ m) = (a, b) :: (toSamples rest ++ toSamples m)
    rw [toSamples_append_even rest m h2]

theorem readData_length (src : Nat → ReadRes) :
    ∀ (k idx : Nat), (readData src idx k).length = k := by
  intro k
  induction k with
  | zero => intro idx; rfl
  | succ k ih =>
    intro idx
    show ((src idx).data :: readData src (idx + 1) k).length = k + 1
    simp [ih]

theorem readData_succ (src : Nat → ReadRes) :
    ∀ (k idx : Nat),
      readData src idx (k + 1) = readData src idx k ++ [(src (idx + k)).data] := by
  intro k
  induction k with
  | zero => intro idx; simp [readData]
  | succ k ih =>
    intro idx
    show (src idx).data :: readData src (idx + 1) (k + 1) = _
    rw [ih (idx + 1)]
    have h : idx + 1 + k = idx + (k + 1) := by omega
    simp [readData, h]

theorem sumBytes_append (a b : List (List Nat)) :
    sumBytes (a ++ b) = sumBytes a + sumBytes b := by
  simp [sumBytes]

theorem data_length_of_fullRead {r : ReadRes} {n : Nat}
    (h : r.fullRead n = true) : r.data.length = n := by
  cases r with
  | chunk d b => simpa [ReadRes.fullRead, ReadRes.data] using h
  | fail e => simp [ReadRes.fullRead] at h

theorem producing_of_fullRead {r : ReadRes} {n : Nat} (hn : 0 < n)
    (h : r.fullRead n = true) : r.producing = true := by
  cases r with
  | chunk d b =>
    have hd : d.length = n := by simpa [ReadRes.fullRead] using h
    cases d with
    | nil => simp at hd; omega
    | cons x t => simp [ReadRes.producing]
  | fail e => simp [ReadRes.fullRead] at h

theorem sumBytes_readData_full (src : Nat → ReadRes) (n : Nat) :
    ∀ (k idx : Nat), (∀ j, j < k → (src (idx + j)).fullRead n = true) →
      sumBytes (readData src idx k) = k * n := by
  intro k
  induction k with
  | zero => intro idx _; simp [readData, sumBytes]
  | succ k ih =>
    intro idx h
    have h0 : (src idx).data.length = n := by
      have := h 0 (Nat.succ_pos k)
      simpa using data_length_of_fullRead this
    have hrest : ∀ j, j < k → (src (idx + 1 + j)).fullRead n = true := by
      intro j hj
      have := h (j + 1) (by omega)
      rwa [show idx + (j + 1) = idx + 1 + j by omega] at this
    show sumBytes ((src idx).data :: readData src (idx + 1) k) = (k + 1) * n
    have : sumBytes ((src idx).data :: readData src (idx + 1) k) =
        (src idx).data.length + sumBytes (readData src (idx + 1) k) := by
      simp [sumBytes]
    rw [this, h0, ih (idx + 1) hrest]
    ring

theorem feedLoop_len_le (src : Nat → ReadRes) (max : Nat) :
    ∀ (fuel : Nat) (st : ChromaprintContext) (total idx : Nat),
      (feedLoop src max st total idx fuel).2.length ≤ fuel := by
  intro fuel
  induction fuel with
  | zero => intro st total idx; simp [feedLoop]
  | succ fuel ih =>
    intro st total idx
    simp only [feedLoop]
    split
    · split
      · simp
      · split
        · simp
        · split
          · simp
          · simp
          · rename_i st1 heq
            simp only [List.length_cons]
            have := ih st1 (total + 10) (idx + 1)
            omega
    · simp

theorem prepare_eq (maxSeconds rate channels : Nat) (src : Nat → ReadRes)
    (algo : Int) :
    prepare maxSeconds rate channels src algo =
      match feedLoop src (clampMax maxSeconds) ⟨algo, .started, []⟩ 0 0
          (clampMax maxSeconds / 10 + 1) with
      | (.error e, feeds) => ⟨.error e, feeds, false⟩
      | (.ok st, feeds) =>
        match Finish st with
        | .error _ => ⟨.error .finish, feeds, true⟩
        | .ok stf => ⟨.ok stf, feeds, true⟩ := rfl

theorem feedLoop_stop_zero (src : Nat → ReadRes) (max : Nat)
    (st : ChromaprintContext) (total idx fuel : Nat) (b : Bool)
    (hg : total ≤ max) (h : src idx = .chunk [] b) :
    feedLoop src max st total idx (fuel + 1) = (.ok st, []) := by
  simp [feedLoop, hg, h]

theorem feedLoop_stop_fail (src : Nat → ReadRes) (max : Nat)
    (st : ChromaprintContext) (total idx fuel e : Nat)
    (hg : total ≤ max) (h : src idx = .fail e) :
    feedLoop src max st total idx (fuel + 1) = (.error (.srcRead e), []) := by
  simp [feedLoop, hg, h]

theorem feedLoop_advance (src : Nat → ReadRes) (max : Nat) :
    ∀ (k fuel total idx : Nat) (st : ChromaprintContext),
      st.phase = .started → k ≤ fuel → total + 10 * k ≤ max + 10 →
      (∀ j, j < k → (src (idx + j)).producing = true) →
      ∃ st2 : ChromaprintContext, st2.phase = .started ∧
        feedLoop src max st total idx fuel =
          ((feedLoop src max st2 (total + 10 * k) (idx + k) (fuel - k)).1,
            readData src idx k ++
              (feedLoop src max st2 (total + 10 * k) (idx + k) (fuel - k)).2) := by
  intro k
  induction k with
  | zero =>
    intro fuel total idx st hp _ _ _
    exact ⟨st, hp, by simp [readData]⟩
  | succ k ih =>
    intro fuel total idx st hp hk ht hsrc
    obtain ⟨fuel, rfl⟩ : ∃ f, fuel = f + 1 := ⟨fuel - 1, by omega⟩
    have hguard : total ≤ max := by omega
    have h0 : (src idx).producing = true := by
      have := hsrc 0 (Nat.succ_pos k)
      simpa using this
    cases hsx : src idx with
    | fail e =>
      rw [hsx] at h0
      simp [ReadRes.producing] at h0
    | chunk d b =>
      rw [hsx] at h0
      have hd : d ≠ [] := by
        cases d with
        | nil => simp [ReadRes.producing] at h0
        | cons x t => simp
      obtain ⟨x, t, rfl⟩ : ∃ x t, d = x :: t := by
        cases d with
        | nil => exact absurd rfl hd
        | cons x t => exact ⟨x, t, rfl⟩
      have hfeed : Feed st (x :: t) =
          .ok { st with samples := st.samples ++ toSamples (x :: t) } := by
        simp [Feed, engineFeed, hp]
      have hsrc1 : ∀ j, j < k → (src (idx + 1 + j)).producing = true := by
        intro j hj
        have := hsrc (j + 1) (by omega)
        rwa [show idx + (j + 1) = idx + 1 + j by omega] at this
      obtain ⟨st2, hp2, heq⟩ :=
        ih fuel (total + 10) (idx + 1)
          { st with samples := st.samples ++ toSamples (x :: t) }
          (by simpa using hp) (by omega) (by omega) hsrc1
      refine ⟨st2, hp2, ?_⟩
      have hunfold : feedLoop src max st total idx (fuel + 1) =
          ((feedLoop src max { st with samples := st.samples ++ toSamples (x :: t) }
              (total + 10) (idx + 1) fuel).1,
            (x :: t) ::
              (feedLoop src max { st with samples := st.samples ++ toSamples (x :: t) }
                (total + 10) (idx + 1) fuel).2) := by
        simp [feedLoop, hguard, hsx, hfeed]
      rw [hunfold, heq]
      have e1 : total + 10 + 10 * k = total + 10 * (k + 1) := by ring
      have e2 : idx + 1 + k = idx + (k + 1) := by omega
      have e3 : (fuel : Nat) - k = fuel + 1 - (k + 1) := by omega
      rw [e1, e2, e3]
      have hrd : readData src idx (k + 1) =
          (x :: t) :: readData src (idx + 1) k := by
        show (src idx).data :: readData src (idx + 1) k = _
        rw [hsx]
        rfl
      rw [hrd]
      rfl

theorem prepare_feeds_len_le (m rate channels : Nat) (src : Nat → ReadRes)
    (algo : Int) :
    (prepare m rate channels src algo).feeds.length ≤ clampMax m / 10 + 1 := by
  have hlen := feedLoop_len_le src (clampMax m) (clampMax m / 10 + 1)
    ⟨algo, .started, []⟩ 0 0
  rcases h : feedLoop src (clampMax m) ⟨algo, .started, []⟩ 0 0
      (clampMax m / 10 + 1) with ⟨res, feeds⟩
  rw [h] at hlen
  rw [prepare_eq, h]
  cases res with
  | error e => simpa using hlen
  | ok st =>
    cases hf : Finish st with
    | error u => simpa [hf] using hlen
    | ok stf => simpa [hf] using hlen

theorem prepare_feeds_eq (m rate channels : Nat) (src : Nat → ReadRes)
    (algo : Int) :
    (prepare m rate channels src algo).feeds =
      (feedLoop src (clampMax m) ⟨algo, .started, []⟩ 0 0
        (clampMax m / 10 + 1)).2 := by
  rcases h : feedLoop src (clampMax m) ⟨algo, .started, []⟩ 0 0
      (clampMax m / 10 + 1) with ⟨res, feeds⟩
  rw [prepare_eq, h]
  cases res with
  | error e => simp
  | ok st =>
    cases hf : Finish st with
    | error u => simp [hf]
    | ok stf => simp [hf]

theorem prepare_run_stops (m rate channels : Nat) (src : Nat → ReadRes)
    (algo : Int) (k : Nat) (b : Bool)
    (hpre : ∀ j, j < k → (src j).producing = true)
    (hk : 10 * k ≤ clampMax m)
    (hzero : src k = .chunk [] b) :
    ∃ c : ChromaprintContext,
      prepare m rate channels src algo = ⟨.ok c, readData src 0 k, true⟩ := by
  have hkd : k ≤ clampMax m / 10 :=
    (Nat.le_div_iff_mul_le (by norm_num)).mpr (by omega)
  obtain ⟨st2, hp2, heq⟩ :=
    feedLoop_advance src (clampMax m) k (clampMax m / 10 + 1) 0 0
      ⟨algo, .started, []⟩ rfl (by omega) (by omega)
      (fun j hj => by simpa using hpre j hj)
  have e3 : clampMax m / 10 + 1 - k = (clampMax m / 10 - k) + 1 := by omega
  rw [e3] at heq
  rw [feedLoop_stop_zero src (clampMax m) st2 (0 + 10 * k) (0 + k)
    (clampMax m / 10 - k) b (by omega) (by simpa using hzero)] at heq
  simp only [List.append_nil] at heq
  refine ⟨{ st2 with phase := .finished }, ?_⟩
  rw [prepare_eq, heq]
  simp [Finish, hp2]

theorem prepare_run_fails (m rate channels : Nat) (src : Nat → ReadRes)
    (algo : Int) (k e : Nat)
    (hpre : ∀ j, j < k → (src j).producing = true)
    (hk : 10 * k ≤ clampMax m)
    (hfail : src k = .fail e) :
    prepare m rate channels src algo =
      ⟨.error (.srcRead e), readData src 0 k, false⟩ := by
  have hkd : k ≤ clampMax m / 10 :=
    (Nat.le_div_iff_mul_le (by norm_num)).mpr (by omega)
  obtain ⟨st2, hp2, heq⟩ :=
    feedLoop_advance src (clampMax m) k (clampMax m / 10 + 1) 0 0
      ⟨algo, .started, []⟩ rfl (by omega) (by omega)
      (fun j hj => by simpa using hpre j hj)
  have e3 : clampMax m / 10 + 1 - k = (clampMax m / 10 - k) + 1 := by omega
  rw [e3] at heq
  rw [feedLoop_stop_fail src (clampMax m) st2 (0 + 10 * k) (0 + k)
    (clampMax m / 10 - k) e (by omega) (by simpa using hfail)] at heq
  simp only [List.append_nil] at heq
  rw [prepare_eq, heq]

/-- C6: for every source, the feed loop of `prepare` terminates after at most
`⌊clampedMaxSeconds/10⌋ + 1` feed calls: the duration counter advances by the
nominal 10 seconds per successful iteration regardless of how many bytes the
read returned, so the loop overruns the nominal cap by at most one chunk. -/
theorem c6_loop_bound (maxSeconds rate channels : Nat) (src : Nat → ReadRes)
    (algo : Int) :
    (prepare maxSeconds rate channels src algo).feeds.length ≤
      clampMax maxSeconds / 10 + 1 :=
  prepare_feeds_len_le maxSeconds rate channels src algo

/-- C2, counterexample: with `maxDurationSeconds = 30` and a source that
always produces data, the feeder does not stop after 3 feed iterations — the
30 is clamped up to the 120-second floor and the loop condition
`total ≤ 120` yields 13 iterations. -/
theorem c2_counterexample :
    ¬ ((prepare 30 1 1 srcEndless 0).feeds.length ≤ 3) := by
  decide

/-- C2, amended: with `maxDurationSeconds = 30` (clamped to the 120-second
floor) the feeder performs at most `⌊120/10⌋ + 1 = 13` feed iterations before
stopping the read loop, for every source. -/
theorem c2_feed_bound (rate channels : Nat) (src : Nat → ReadRes)
    (algo : Int) :
    (prepare 30 rate channels src algo).feeds.length ≤ 13 := by
  have h := prepare_feeds_len_le 30 rate channels src algo
  simpa [clampMax, minmaxseconds] using h

theorem applyOp_algorithm (ctx : ChromaprintContext) (op : COp) :
    (applyOp ctx op).algorithm = ctx.algorithm := by
  cases op with
  | setOption n v => rfl
  | start r c => rfl
  | feed d =>
    cases d with
    | nil => rfl
    | cons x t =>
      by_cases hp : ctx.phase = .started <;>
        simp [applyOp, Feed, engineFeed, hp]
  | finish =>
    by_cases hp : ctx.phase = .started <;> simp [applyOp, Finish, hp]
  | getFingerprint => rfl
  | getRawFingerprint => rfl
  | getItemDuration => rfl
  | getItemDurationSamples => rfl

/-- C8: the algorithm selected at context creation is immutable —
`Algorithm()` still returns it after any sequence of `SetOption`, `Start`,
`Feed`, `Finish`, `GetFingerprint`, `GetRawFingerprint`, `GetItemDuration`
and `GetItemDurationSamples` calls. -/
theorem c8_algorithm_immutable (a : Int) (ops : List COp) :
    Algorithm (ops.foldl applyOp (NewChromaprint a)) = a := by
  suffices h : ∀ (l : List COp) (ctx : ChromaprintContext),
      (l.foldl applyOp ctx).algorithm = ctx.algorithm by
    simpa [Algorithm, NewChromaprint] using h ops (NewChromaprint a)
  intro l
  induction l with
  | nil => intro ctx; rfl
  | cons op rest ih =>
    intro ctx
    simp only [List.foldl_cons]
    rw [ih (applyOp ctx op), applyOp_algorithm]

/-- C9: feeding an odd-length non-empty chunk of `2k + 1` bytes to a started
context succeeds, forwarding exactly `k` samples (`len(data)/2`) to the
engine — the final byte is silently dropped, with no error reported. -/
theorem c9_odd_chunk (ctx : ChromaprintContext) (data : List Nat) (k : Nat)
    (hp : ctx.phase = .started) (hl : data.length = 2 * k + 1) :
    Feed ctx data = .ok { ctx with samples := ctx.samples ++ toSamples data } ∧
      (toSamples data).length = k := by
  obtain ⟨x, t, rfl⟩ : ∃ x t, data = x :: t := by
    cases data with
    | nil => simp at hl
    | cons x t => exact ⟨x, t, rfl⟩
  constructor
  · simp [Feed, engineFeed, hp]
  · rw [toSamples_length]
    omega

theorem c9_odd_chunk_witness :
    ([1, 2, 3] : List Nat).length = 2 * 1 + 1 ∧
      (Feed startedCtx [1, 2, 3] =
          .ok { startedCtx with
                  samples := startedCtx.samples ++ toSamples [1, 2, 3] } ∧
        (toSamples [1, 2, 3]).length = 1) :=
  ⟨by decide, c9_odd_chunk startedCtx [1, 2, 3] 1 rfl (by decide)⟩

/-- C7, counterexample: `Feed` of an empty chunk does not return a
`FeedError` — it is a Go runtime panic (`&data[0]` indexes an empty
slice). -/
theorem c7_counterexample :
    Feed startedCtx [] = .panicked ∧
      FeedResult.panicked ≠ FeedResult.err ∧
      ∀ c : ChromaprintContext, FeedResult.panicked ≠ FeedResult.ok c :=
  ⟨rfl, by decide, fun _ h => FeedResult.noConfusion h⟩

/-- C7, amended: for every non-empty byte slice, `Feed` returns normally with
either success or the `FeedError` value; an empty slice instead causes a
runtime panic, not a `FeedError`. -/
theorem c7_feed_no_panic (ctx : ChromaprintContext) (data : List Nat)
    (h : data ≠ []) :
    Feed ctx data = .err ∨ ∃ c, Feed ctx data = .ok c := by
  obtain ⟨x, t, rfl⟩ := List.exists_cons_of_ne_nil h
  rcases hf : engineFeed ctx (toSamples (x :: t)) with _ | c
  · exact Or.inl (by simp [Feed, hf])
  · exact Or.inr ⟨c, by simp [Feed, hf]⟩

theorem c7_feed_no_panic_witness :
    ([0, 0] : List Nat) ≠ [] ∧
      (Feed startedCtx [0, 0] = .err ∨
        ∃ c, Feed startedCtx [0, 0] = .ok c) :=
  ⟨by decide, c7_feed_no_panic startedCtx [0, 0] (by decide)⟩

theorem feedSeq_ok :
    ∀ (chunks : List (List Nat)) (ctx : ChromaprintContext),
      ctx.phase = .started →
      (∀ c ∈ chunks, c ≠ [] ∧ c.length % 2 = 0) →
      feedSeq ctx chunks =
        .ok { ctx with samples := ctx.samples ++ toSamples chunks.flatten } := by
  intro chunks
  induction chunks with
  | nil =>
    intro ctx hp _
    simp [feedSeq, toSamples]
  | cons c rest ih =>
    intro ctx hp hchunks
    have hc := hchunks c (List.mem_cons_self c rest)
    obtain ⟨x, t, rfl⟩ := List.exists_cons_of_ne_nil hc.1
    have hfeed : Feed ctx (x :: t) =
        .ok { ctx with samples := ctx.samples ++ toSamples (x :: t) } := by
      simp [Feed, engineFeed, hp]
    have hrest : ∀ d ∈ rest, d ≠ [] ∧ d.length % 2 = 0 := by
      intro d hd
      exact hchunks d (List.mem_cons_of_mem _ hd)
    show (match Feed ctx (x :: t) with
          | .ok ctx1 => feedSeq ctx1 rest
          | r => r) = _
    rw [hfeed]
    show feedSeq { ctx with samples := ctx.samples ++ toSamples (x :: t) } rest = _
    rw [ih { ctx with samples := ctx.samples ++ toSamples (x :: t) } hp hrest]
    have hjoin : toSamples ((x :: t) ++ rest.flatten) =
        toSamples (x :: t) ++ toSamples rest.flatten :=
      toSamples_append_even (x :: t) rest.flatten hc.2
    simp [List.append_assoc, hjoin]
    exact hjoin.symm

/-- C3, counterexample: splitting the stream `[1,2,3,4]` at an odd boundary
into the chunks `[1,2,3]` and `[4]` (both within the configured chunk size)
changes the result of feeding — the odd chunk's trailing byte is dropped by
the `len(data)/2` sample count, so the engine accumulates one sample instead
of two and the resulting context (hence any fingerprint extracted from it)
differs from feeding the stream as a single chunk. -/
theorem c3_counterexample :
    ([[1, 2, 3], [4]] : List (List Nat)).flatten = [1, 2, 3, 4] ∧
      (∀ c ∈ ([[1, 2, 3], [4]] : List (List Nat)),
        c.length ≤ numbytes 1 1) ∧
      feedSeq startedCtx [[1, 2, 3], [4]] ≠ Feed startedCtx [1, 2, 3, 4] := by
  refine ⟨by decide, by decide, by decide⟩

/-- C3, amended: feeding a PCM stream to a started context as one chunk or as
any sequence of non-empty, even-length chunks (each within the configured
chunk size) covering the same bytes in the same order yields the same final
context — feed is purely accumulative — and therefore bit-identical compact
and raw fingerprints after `Finish`. -/
theorem c3_chunking_even (ctx : ChromaprintContext) (rate channels : Nat)
    (chunks : List (List Nat)) (hp : ctx.phase = .started)
    (hne : chunks ≠ [])
    (hchunks : ∀ c ∈ chunks,
      c ≠ [] ∧ c.length % 2 = 0 ∧ c.length ≤ numbytes rate channels) :
    feedSeq ctx chunks = Feed ctx chunks.flatten := by
  have h1 : feedSeq ctx chunks =
      .ok { ctx with samples := ctx.samples ++ toSamples chunks.flatten } :=
    feedSeq_ok chunks ctx hp (fun c hc => ⟨(hchunks c hc).1, (hchunks c hc).2.1⟩)
  have hjoin : chunks.flatten ≠ [] := by
    obtain ⟨c, rest, rfl⟩ := List.exists_cons_of_ne_nil hne
    have hc := (hchunks c (List.mem_cons_self c rest)).1
    intro h
    rw [show (c :: rest).flatten = c ++ rest.flatten from rfl] at h
    rcases List.append_eq_nil.mp h with ⟨h1, _⟩
    exact hc h1
  rw [h1]
  obtain ⟨x, t, hxt⟩ := List.exists_cons_of_ne_nil hjoin
  rw [hxt]
  simp [Feed, engineFeed, hp]

theorem c3_chunking_even_witness :
    (([[1, 2], [3, 4]] : List (List Nat)) ≠ []) ∧
      (∀ c ∈ ([[1, 2], [3, 4]] : List (List Nat)),
        c ≠ [] ∧ c.length % 2 = 0 ∧ c.length ≤ numbytes 1 1) ∧
      feedSeq startedCtx [[1, 2], [3, 4]] =
        Feed startedCtx ([[1, 2], [3, 4]] : List (List Nat)).flatten :=
  ⟨by decide, by decide,
    c3_chunking_even startedCtx 1 1 [[1, 2], [3, 4]] rfl (by decide) (by decide)⟩

/-- C1: when the caller's `maxDurationSeconds` is below the 120-second floor,
the cap used by the feed loop is 120 seconds, and a source supplying at least
120 seconds of audio (twelve full 10-second chunk reads) gets at least 120
seconds' worth of bytes fed to the context, not the smaller requested
amount. -/
theorem c1_min_floor (maxSeconds rate channels : Nat) (src : Nat → ReadRes)
    (algo : Int)
    (hm : maxSeconds < minmaxseconds) (hr : 0 < rate) (hc : 0 < channels)
    (hfull : ∀ j, j < minmaxseconds / seconds →
      (src j).fullRead (numbytes rate channels) = true) :
    clampMax maxSeconds = minmaxseconds ∧
      minmaxseconds * (2 * rate * channels) ≤
        sumBytes (prepare maxSeconds rate channels src algo).feeds := by
  have hclamp : clampMax maxSeconds = minmaxseconds := by
    simp [clampMax, hm]
  have h12 : minmaxseconds / seconds = 12 := by norm_num [minmaxseconds, seconds]
  have hnb : 0 < numbytes rate channels :=
    Nat.mul_pos (Nat.mul_pos (by norm_num [seconds]) hr) hc
  have hfull12 : ∀ j, j < 12 →
      (src j).fullRead (numbytes rate channels) = true := by
    intro j hj
    exact hfull j (by omega)
  have hprod : ∀ j, j < 12 → (src (0 + j)).producing = true := by
    intro j hj
    have := producing_of_fullRead hnb (hfull12 j hj)
    simpa using this
  obtain ⟨st2, hp2, heq⟩ :=
    feedLoop_advance src minmaxseconds 12 (minmaxseconds / 10 + 1) 0 0
      ⟨algo, .started, []⟩ rfl (by norm_num [minmaxseconds])
      (by norm_num [minmaxseconds]) hprod
  refine ⟨hclamp, ?_⟩
  rw [prepare_feeds_eq, hclamp, heq]
  rw [sumBytes_append]
  have hsum : sumBytes (readData src 0 12) = 12 * numbytes rate channels :=
    sumBytes_readData_full src (numbytes rate channels) 12 0
      (fun j hj => by simpa using hfull12 j hj)
  rw [hsum]
  have hle : minmaxseconds * (2 * rate * channels) =
      12 * numbytes rate channels := by
    simp only [numbytes, seconds, minmaxseconds]
    ring
  omega

theorem c1_min_floor_witness :
    5 < minmaxseconds ∧
      (clampMax 5 = minmaxseconds ∧
        minmaxseconds * (2 * 1 * 1) ≤
          sumBytes (prepare 5 1 1 srcEndless 0).feeds) :=
  ⟨by decide,
    c1_min_floor 5 1 1 srcEndless 0 (by decide) (by decide) (by decide)
      (fun j hj => rfl)⟩

/-- C4: a zero-byte read with no error (including a clean end-of-stream with
no data) stops the feed loop without an error, `Finish` is still called on
the context, and the run completes successfully: if the first `k` reads
produce data, read `k` returns zero bytes, and the duration cap has not yet
stopped the loop, `prepare` returns a final context with exactly the `k`
chunks fed and `finishCalled = true`. -/
theorem c4_zero_read_success (m rate channels : Nat) (src : Nat → ReadRes)
    (algo : Int) (k : Nat) (b : Bool)
    (hpre : ∀ j, j < k → (src j).producing = true)
    (hk : 10 * k ≤ clampMax m)
    (hzero : src k = .chunk [] b) :
    ∃ c : ChromaprintContext,
      (prepare m rate channels src algo).result = .ok c ∧
        (prepare m rate channels src algo).finishCalled = true ∧
        (prepare m rate channels src algo).feeds.length = k := by
  obtain ⟨c, hcr⟩ := prepare_run_stops m rate channels src algo k b hpre hk hzero
  exact ⟨c, by rw [hcr], by rw [hcr],
    by rw [hcr]; exact readData_length src k 0⟩

theorem c4_zero_read_success_witness :
    10 * 1 ≤ clampMax 0 ∧
      srcStopAfterOne 1 = .chunk [] true ∧
      ∃ c : ChromaprintContext,
        (prepare 0 1 1 srcStopAfterOne 0).result = .ok c ∧
          (prepare 0 1 1 srcStopAfterOne 0).finishCalled = true ∧
          (prepare 0 1 1 srcStopAfterOne 0).feeds.length = 1 :=
  ⟨by decide, by decide,
    c4_zero_read_success 0 1 1 srcStopAfterOne 0 1 true
      (fun j hj => by
        have hj0 : j = 0 := by omega
        subst hj0
        decide)
      (by decide) (by decide)⟩

/-- C5: a non-EOF source read error on any iteration makes `prepare` abort
immediately, propagating that error as the source-read failure, without
calling `Finish` and without feeding further chunks; `Fingerprint` returns
the empty string and `RawFingerprint` returns nil (modelled `[]`), each with
the error. -/
theorem c5_source_error_aborts (m rate channels : Nat) (src : Nat → ReadRes)
    (algo : Int) (k e : Nat)
    (enc : List (Nat × Nat) → String) (encRaw : List (Nat × Nat) → List Int)
    (hpre : ∀ j, j < k → (src j).producing = true)
    (hk : 10 * k ≤ clampMax m)
    (hfail : src k = .fail e) :
    (prepare m rate channels src algo).result = .error (.srcRead e) ∧
      (prepare m rate channels src algo).finishCalled = false ∧
      (prepare m rate channels src algo).feeds.length = k ∧
      Fingerprint enc m rate channels src algo = ("", some (.srcRead e)) ∧
      RawFingerprint encRaw m rate channels src algo =
        ([], some (.srcRead e)) := by
  have hcr := prepare_run_fails m rate channels src algo k e hpre hk hfail
  refine ⟨by rw [hcr], by rw [hcr],
    by rw [hcr]; exact readData_length src k 0, ?_, ?_⟩
  · simp [Fingerprint, hcr]
  · simp [RawFingerprint, hcr]

theorem c5_source_error_aborts_witness :
    10 * 1 ≤ clampMax 0 ∧
      srcFailSecond 1 = .fail 7 ∧
      ((prepare 0 1 1 srcFailSecond 0).result = .error (.srcRead 7) ∧
        (prepare 0 1 1 srcFailSecond 0).finishCalled = false ∧
        (prepare 0 1 1 srcFailSecond 0).feeds.length = 1 ∧
        Fingerprint (fun _ => "") 0 1 1 srcFailSecond 0 =
          ("", some (.srcRead 7)) ∧
        RawFingerprint (fun _ => []) 0 1 1 srcFailSecond 0 =
          ([], some (.srcRead 7))) :=
  ⟨by decide, by decide,
    c5_source_error_aborts 0 1 1 srcFailSecond 0 1 7 (fun _ => "")
      (fun _ => [])
      (fun j hj => by
        have hj0 : j = 0 := by omega
        subst hj0
        decide)
      (by decide) (by decide)⟩

/-- C10: when a read returns data together with a clean end-of-stream
indication (`io.EOF`), those bytes are still fed before the loop continues —
the trailing chunk is the last chunk fed — and the loop then terminates on
the subsequent zero-byte read, with `Finish` called and the run
succeeding. -/
theorem c10_trailing_data_fed (m rate channels : Nat) (src : Nat → ReadRes)
    (algo : Int) (k : Nat) (d : List Nat) (b : Bool)
    (hpre : ∀ j, j < k → (src j).producing = true)
    (heof : src k = .chunk d true) (hd : d ≠ [])
    (hk : 10 * (k + 1) ≤ clampMax m)
    (hzero : src (k + 1) = .chunk [] b) :
    ∃ c : ChromaprintContext,
      (prepare m rate channels src algo).result = .ok c ∧
        (prepare m rate channels src algo).finishCalled = true ∧
        ∃ fed : List (List Nat),
          (prepare m rate channels src algo).feeds = fed ++ [d] ∧
            fed.length = k := by
  have hpre1 : ∀ j, j < k + 1 → (src j).producing = true := by
    intro j hj
    rcases Nat.lt_or_ge j k with h | h
    · exact hpre j h
    · have hjk : j = k := by omega
      subst hjk
      cases d with
      | nil => exact absurd rfl hd
      | cons x t => rw [heof]; rfl
  obtain ⟨c, hcr⟩ :=
    prepare_run_stops m rate channels src algo (k + 1) b hpre1 hk hzero
  refine ⟨c, by rw [hcr], by rw [hcr], readData src 0 k, ?_,
    readData_length src k 0⟩
  rw [hcr]
  show readData src 0 (k + 1) = readData src 0 k ++ [d]
  rw [readData_succ src k 0]
  congr 1
  simp [heof, ReadRes.data]

theorem c10_trailing_data_fed_witness :
    srcTrailingEof 0 = .chunk [9, 9] true ∧
      10 * (0 + 1) ≤ clampMax 0 ∧
      ∃ c : ChromaprintContext,
        (prepare 0 1 1 srcTrailingEof 0).result = .ok c ∧
          (prepare 0 1 1 srcTrailingEof 0).finishCalled = true ∧
          ∃ fed : List (List Nat),
            (prepare 0 1 1 srcTrailingEof 0).feeds = fed ++ [[9, 9]] ∧
              fed.length = 0 :=
  ⟨by decide, by decide,
    c10_trailing_data_fed 0 1 1 srcTrailingEof 0 0 [9, 9] true
      (fun j hj => absurd hj (Nat.not_lt_zero j))
      (by decide) (by decide) (by decide) (by decide)⟩
